import Mathlib

/-!
Verification of the threshold multisig governance and nonce-sequencing
engine of nightfall_3, shallowly embedded from:
- src/cli/lib/nf3.mjs (nonce allocation inside Nf3.submitTransaction),
- src/nightfall-optimist/src/services/process-calldata.mjs (the
  ContractMultiSig class building one multisig call per target contract),
- src/nightfall-administrator/src/ui/get-info.mjs (the threshold gate, the
  execution loop and the get nonce workflow of the start function).
Parts of the engine that live in files outside the provided sources
(multisig.mjs, services/helpers.mjs) are modelled from the specification
and marked as such in their doc comments.
-/

/-- Result of one pass through the nonce-allocating critical section of
Nf3.submitTransaction (nf3.mjs lines 134-151): the nonce placed in the
transaction, the updated cached nonce, and whether the chain was consulted
for the transaction count. -/
structure NonceAllocation where
  txNonce : Nat
  nextNonce : Nat
  consultedChain : Bool
deriving DecidableEq

/-- Embedding of the body of nonceMutex.runExclusive in Nf3.submitTransaction
(nf3.mjs lines 134-151): if the cached nonce is zero (falsy in the source),
the transaction count is fetched from the ethereum client and used as the
transaction nonce; otherwise the cached value is used without consulting the
chain; in both cases the cache is then incremented by one. -/
def submitTransactionAlloc (nonce chainCount : Nat) : NonceAllocation :=
  if nonce = 0 then
    { txNonce := chainCount, nextNonce := chainCount + 1, consultedChain := true }
  else
    { txNonce := nonce, nextNonce := nonce + 1, consultedChain := false }

/-- Two passes through the critical section, serialized by nonceMutex
(nf3.mjs line 52): the second reservation starts from the cached state the
first one leaves behind.  Returns the two allocated transaction nonces. -/
def twoReservations (s c1 c2 : Nat) : Nat × Nat :=
  let r1 := submitTransactionAlloc s c1
  let r2 := submitTransactionAlloc r1.nextNonce c2
  (r1.txNonce, r2.txNonce)

/-- The Nf3 instance state relevant to nonce tracking (nf3.mjs lines 38-52):
the signing key, the derived address, and the cached nonce (initially 0). -/
structure Nf3 where
  ethereumSigningKey : Nat
  ethereumAddress : Nat
  nonce : Nat
deriving DecidableEq

/-- Embedding of Nf3.setEthereumSigningKey (nf3.mjs lines 97-102): stores the
key, recomputes the address from it (privateKeyToAccount, abstracted as the
function pk2a), and clears the cached nonce to zero. -/
def setEthereumSigningKey (pk2a : Nat → Nat) (_s : Nf3) (key : Nat) : Nf3 :=
  { ethereumSigningKey := key, ethereumAddress := pk2a key, nonce := 0 }

/-- ABI call data produced by the encodeABI calls in ContractMultiSig
(process-calldata.mjs): one constructor per administrative method, carrying
the encoded arguments.  ABI encoding is deterministic, so equal parameters
give equal data; addresses and amounts are abstracted as naturals. -/
inductive CallData where
  | transferOwnership (newOwner : Nat)
  | pause
  | unpause
  | setRestriction (token deposit withdraw : Nat)
  | removeRestriction (token : Nat)
  | setBootProposer (proposer : Nat)
  | setBootChallenger (challenger : Nat)
  | setMaticAddress (matic : Nat)
deriving DecidableEq

/-- One multisig call record: target contract address, encoded call data,
and the multisig nonce it is bound to. -/
structure MultiSigCall where
  target : Nat
  data : CallData
  nonce : Nat
deriving DecidableEq

/-- Modelled from the spec: MultiSig.addMultiSigSignature lives in
multisig.mjs, which is not among the provided source files.  Per spec
sections 4.3 and 4.4 it records one multisig call (target contract, encoded
data, nonce) and signs its canonical payload; only the produced call record
matters for the bundle-construction claims. -/
def addMultiSigSignature (data : CallData) (target nonce : Nat) : MultiSigCall :=
  { target := target, data := data, nonce := nonce }

/-- Addresses of the contract instances handed to the ContractMultiSig
constructor (process-calldata.mjs lines 151-168). -/
structure ContractInstances where
  multisig : Nat
  shield : Nat
  state : Nat
  proposers : Nat
  challenges : Nat
deriving DecidableEq

/-- contractInstancesOwnables as pushed by the ContractMultiSig constructor:
shield, state, proposers, challenges, in that order (lines 161-166). -/
def contractInstancesOwnables (ci : ContractInstances) : List Nat :=
  [ci.shield, ci.state, ci.proposers, ci.challenges]

/-- contractInstancesPausables as pushed by the ContractMultiSig constructor:
shield, state, in that order (line 167). -/
def contractInstancesPausables (ci : ContractInstances) : List Nat :=
  [ci.shield, ci.state]

/-- Embedding of ContractMultiSig.transferOwnership (lines 170-186): one call
per ownable contract, at nonce plus the position index, each carrying the
transferOwnership data for the address derived from the new owner key. -/
def transferOwnership (pk2a : Nat → Nat) (ci : ContractInstances)
    (newOwnerPrivateKey nonce : Nat) : List MultiSigCall :=
  (contractInstancesOwnables ci).enum.map fun p =>
    addMultiSigSignature (CallData.transferOwnership (pk2a newOwnerPrivateKey)) p.2 (nonce + p.1)

/-- Embedding of ContractMultiSig.pauseContracts (lines 229-244): one call
per pausable contract, at nonce plus the position index. -/
def pauseContracts (ci : ContractInstances) (nonce : Nat) : List MultiSigCall :=
  (contractInstancesPausables ci).enum.map fun p =>
    addMultiSigSignature CallData.pause p.2 (nonce + p.1)

/-- Embedding of ContractMultiSig.unpauseContracts (lines 246-261): one call
per pausable contract, at nonce plus the position index. -/
def unpauseContracts (ci : ContractInstances) (nonce : Nat) : List MultiSigCall :=
  (contractInstancesPausables ci).enum.map fun p =>
    addMultiSigSignature CallData.unpause p.2 (nonce + p.1)

/-- Embedding of ContractMultiSig.setTokenRestrictions (lines 191-211): a
single call on the shield contract at the given nonce. -/
def setTokenRestrictions (ci : ContractInstances)
    (tokenAddress dep wd nonce : Nat) : List MultiSigCall :=
  [addMultiSigSignature (CallData.setRestriction tokenAddress dep wd) ci.shield nonce]

/-- Embedding of ContractMultiSig.removeTokenRestrictions (lines 216-227): a
single call on the shield contract at the given nonce. -/
def removeTokenRestrictions (ci : ContractInstances)
    (tokenAddress nonce : Nat) : List MultiSigCall :=
  [addMultiSigSignature (CallData.removeRestriction tokenAddress) ci.shield nonce]

/-- Embedding of ContractMultiSig.setBootProposer (lines 263-279): a single
call on the shield contract at the given nonce. -/
def setBootProposer (pk2a : Nat → Nat) (ci : ContractInstances)
    (newProposerPrivateKey nonce : Nat) : List MultiSigCall :=
  [addMultiSigSignature (CallData.setBootProposer (pk2a newProposerPrivateKey)) ci.shield nonce]

/-- Embedding of ContractMultiSig.setBootChallenger (lines 281-297): a single
call on the shield contract at the given nonce. -/
def setBootChallenger (pk2a : Nat → Nat) (ci : ContractInstances)
    (newChallengerPrivateKey nonce : Nat) : List MultiSigCall :=
  [addMultiSigSignature (CallData.setBootChallenger (pk2a newChallengerPrivateKey)) ci.shield nonce]

/-- Embedding of ContractMultiSig.setMaticAddress (lines 299-311): a single
call on the shield contract at the given nonce. -/
def setMaticAddress (ci : ContractInstances)
    (newMaticAddress nonce : Nat) : List MultiSigCall :=
  [addMultiSigSignature (CallData.setMaticAddress newMaticAddress) ci.shield nonce]

/-- The execution gate of the start loop in get-info.mjs line 158: an
approval set is executed exactly when its length equals the configured
SIGNATURE_THRESHOLD.  Approvals are abstracted as lists of signer entries. -/
def gateReady (threshold : Nat) (approval : List Nat) : Bool :=
  approval.length == threshold

/-- C1: the spec requires the threshold gate to report ready if and only if
the signature set holds at least M distinct signatures; the code of
get-info.mjs line 158 compares with strict equality, so a set that has
grown past M (here three signatures against threshold two) is never
executed, while the boundary case of exactly M passes. -/
theorem c1_gate_uses_equality_not_at_least :
    gateReady 2 [0, 1] = true ∧
    gateReady 2 [0, 1, 2] = false ∧
    2 ≤ ([0, 1, 2] : List Nat).length := by
  decide

/-- C2: each bundle builder of ContractMultiSig produces exactly one
multisig call per target contract, with nonces assigned in target-list
order starting at the base nonce: n, n+1, ..., n+k-1. -/
theorem c2_bundle_one_call_per_target_with_sequential_nonces
    (pk2a : Nat → Nat) (ci : ContractInstances)
    (ownerKey n token dep wd bootKey matic : Nat) :
    (transferOwnership pk2a ci ownerKey n).length = (contractInstancesOwnables ci).length ∧
    (transferOwnership pk2a ci ownerKey n).map MultiSigCall.nonce = [n, n + 1, n + 2, n + 3] ∧
    (pauseContracts ci n).length = (contractInstancesPausables ci).length ∧
    (pauseContracts ci n).map MultiSigCall.nonce = [n, n + 1] ∧
    (unpauseContracts ci n).map MultiSigCall.nonce = [n, n + 1] ∧
    (setTokenRestrictions ci token dep wd n).map MultiSigCall.nonce = [n] ∧
    (removeTokenRestrictions ci token n).map MultiSigCall.nonce = [n] ∧
    (setBootProposer pk2a ci bootKey n).map MultiSigCall.nonce = [n] ∧
    (setBootChallenger pk2a ci bootKey n).map MultiSigCall.nonce = [n] ∧
    (setMaticAddress ci matic n).map MultiSigCall.nonce = [n] :=
  ⟨rfl, rfl, rfl, rfl, rfl, rfl, rfl, rfl, rfl, rfl⟩

/-- C3: two nonce reservations serialized by the nonceMutex critical section
of Nf3.submitTransaction never overlap: whatever the cached state and the
chain counts observed, the second reservation allocates exactly the
successor of the first, so the two single-nonce ranges are disjoint. -/
theorem c3_serialized_reservations_never_overlap (s c1 c2 : Nat) :
    (twoReservations s c1 c2).2 = (twoReservations s c1 c2).1 + 1 ∧
    (twoReservations s c1 c2).1 ≠ (twoReservations s c1 c2).2 := by
  by_cases h : s = 0 <;>
    simp [twoReservations, submitTransactionAlloc, h]

/-- C4: when no local nonce is cached (cache zero), the allocation consults
the chain and uses the fetched transaction count as the transaction nonce;
when a nonce is cached, the allocation uses the cached value, increments the
cache by exactly one, and does not consult the chain. -/
theorem c4_nonce_source_selection (s c : Nat) :
    submitTransactionAlloc 0 c
      = { txNonce := c, nextNonce := c + 1, consultedChain := true } ∧
    (s ≠ 0 →
      submitTransactionAlloc s c
        = { txNonce := s, nextNonce := s + 1, consultedChain := false }) := by
  refine ⟨rfl, fun h => ?_⟩
  simp [submitTransactionAlloc, h]

/-- Witness for C4 at the concrete cached nonce 5 and chain count 7. -/
theorem c4_witness :
    5 ≠ 0 ∧
    submitTransactionAlloc 5 7
      = { txNonce := 5, nextNonce := 6, consultedChain := false } :=
  ⟨by decide, (c4_nonce_source_selection 5 7).2 (by decide)⟩

/-- C8: the target set of each action variant is fixed by the constructor
lists: pause and unpause touch exactly the pausable contracts (shield,
state) and transferOwnership touches exactly the ownable contracts (shield,
state, proposers, challenges), in declaration order, with the matching
encoded data on every call. -/
theorem c8_target_sets_fixed_per_capability
    (pk2a : Nat → Nat) (ci : ContractInstances) (ownerKey n : Nat) :
    (pauseContracts ci n).map MultiSigCall.target = contractInstancesPausables ci ∧
    (pauseContracts ci n).map MultiSigCall.data = [CallData.pause, CallData.pause] ∧
    (unpauseContracts ci n).map MultiSigCall.target = contractInstancesPausables ci ∧
    (unpauseContracts ci n).map MultiSigCall.data = [CallData.unpause, CallData.unpause] ∧
    (transferOwnership pk2a ci ownerKey n).map MultiSigCall.target
      = contractInstancesOwnables ci ∧
    (transferOwnership pk2a ci ownerKey n).map MultiSigCall.data
      = List.replicate 4 (CallData.transferOwnership (pk2a ownerKey)) :=
  ⟨rfl, rfl, rfl, rfl, rfl, rfl⟩

/-- C10: setting a fresh ethereum signing key clears the cached nonce to
zero, so the next allocation consults the chain for the new address and
uses the freshly fetched transaction count, never a value cached for a
previous key. -/
theorem c10_set_key_resets_nonce (pk2a : Nat → Nat) (s : Nf3) (key c : Nat) :
    (setEthereumSigningKey pk2a s key).nonce = 0 ∧
    submitTransactionAlloc (setEthereumSigningKey pk2a s key).nonce c
      = { txNonce := c, nextNonce := c + 1, consultedChain := true } :=
  ⟨rfl, rfl⟩

/-- Events in the execution trace of the start loop: submission of an
approved call and its acceptance by the network. -/
inductive ExecEvent where
  | submit (approval : List Nat)
  | accepted (approval : List Nat)
deriving DecidableEq

/-- Modelled from the spec: executeMultiSigTransaction lives in
services/helpers.mjs, which is not among the provided source files.  Per
spec section 4.6 it submits the call on-chain and returns only once the
network has accepted the transaction; it is modelled as the submit event
immediately followed by the acceptance event. -/
def executeMultiSigTransaction (approval : List Nat) : List ExecEvent :=
  [ExecEvent.submit approval, ExecEvent.accepted approval]

/-- The approvals the start loop of get-info.mjs (lines 156-163) executes:
those passing the gate, truncated by slice(0, SIGNATURE_THRESHOLD), kept in
list order. -/
def executedApprovals (threshold : Nat) : List (List Nat) → List (List Nat)
  | [] => []
  | a :: rest =>
    if gateReady threshold a then a.take threshold :: executedApprovals threshold rest
    else executedApprovals threshold rest

/-- Embedding of the execution loop of get-info.mjs lines 156-163: for each
approval in order, if the gate passes, execute it (awaiting network
acceptance, since the loop awaits each call) before moving to the next. -/
def executorTrace (threshold : Nat) : List (List Nat) → List ExecEvent
  | [] => []
  | a :: rest =>
    if gateReady threshold a then
      executeMultiSigTransaction (a.take threshold) ++ executorTrace threshold rest
    else executorTrace threshold rest

/-- The canonical submit-then-accepted pair trace of a list of approvals. -/
def pairTrace : List (List Nat) → List ExecEvent
  | [] => []
  | a :: rest => ExecEvent.submit a :: ExecEvent.accepted a :: pairTrace rest

lemma executorTrace_eq_pairTrace (threshold : Nat) (approved : List (List Nat)) :
    executorTrace threshold approved = pairTrace (executedApprovals threshold approved) := by
  induction approved with
  | nil => rfl
  | cons a rest ih =>
    by_cases h : gateReady threshold a <;>
      simp [executorTrace, executedApprovals, h, executeMultiSigTransaction, pairTrace, ih]

lemma pairTrace_length (L : List (List Nat)) : (pairTrace L).length = 2 * L.length := by
  induction L with
  | nil => rfl
  | cons a L ih =>
    simp only [pairTrace, List.length_cons, ih]
    omega

lemma pairTrace_get (L : List (List Nat)) (k : Nat) :
    (pairTrace L).get? (2 * k) = (L.get? k).map ExecEvent.submit ∧
    (pairTrace L).get? (2 * k + 1) = (L.get? k).map ExecEvent.accepted := by
  induction L generalizing k with
  | nil => simp [pairTrace]
  | cons a L ih =>
    cases k with
    | zero => simp [pairTrace]
    | succ k =>
      have h2 : 2 * (k + 1) = 2 * k + 1 + 1 := by ring
      rw [h2]
      constructor
      · show (pairTrace L).get? (2 * k) = (L.get? k).map ExecEvent.submit
        exact (ih k).1
      · show (pairTrace L).get? (2 * k + 1) = (L.get? k).map ExecEvent.accepted
        exact (ih k).2

lemma executedApprovals_of_all_ready (threshold : Nat) :
    ∀ approved : List (List Nat),
      (∀ a ∈ approved, gateReady threshold a = true) →
      executedApprovals threshold approved = approved.map (fun a => a.take threshold)
  | [], _ => rfl
  | a :: rest, hall => by
    have h := hall a (List.mem_cons_self a rest)
    simp [executedApprovals, h,
      executedApprovals_of_all_ready threshold rest
        (fun x hx => hall x (List.mem_cons_of_mem a hx))]

/-- C5: when every approval in the bundle is ready, the executor executes
all of them, in bundle order; in general the trace of the execution loop
puts the submission of the k-th executed call at position 2k and its
network acceptance at position 2k+1, so the submission of call k+1 (at
position 2k+2) is attempted only after the acceptance of call k (at
position 2k+1). -/
theorem c5_executor_preserves_order_and_awaits_acceptance
    (threshold : Nat) (approved : List (List Nat)) :
    ((∀ a ∈ approved, gateReady threshold a = true) →
      executedApprovals threshold approved = approved.map (fun a => a.take threshold)) ∧
    (executorTrace threshold approved).length
      = 2 * (executedApprovals threshold approved).length ∧
    ∀ k : Nat,
      (executorTrace threshold approved).get? (2 * k)
        = ((executedApprovals threshold approved).get? k).map ExecEvent.submit ∧
      (executorTrace threshold approved).get? (2 * k + 1)
        = ((executedApprovals threshold approved).get? k).map ExecEvent.accepted := by
  refine ⟨executedApprovals_of_all_ready threshold approved, ?_, ?_⟩
  · rw [executorTrace_eq_pairTrace]
    exact pairTrace_length _
  · intro k
    rw [executorTrace_eq_pairTrace]
    exact pairTrace_get _ k

/-- Witness for C5 on a two-call bundle whose approvals are all ready at
threshold two. -/
theorem c5_witness :
    (∀ a ∈ [[5, 6], [7, 8]], gateReady 2 a = true) ∧
    executedApprovals 2 [[5, 6], [7, 8]] = [[5, 6], [7, 8]].map (fun a => a.take 2) :=
  ⟨by decide,
    (c5_executor_preserves_order_and_awaits_acceptance 2 [[5, 6], [7, 8]]).1 (by decide)⟩

/-- Outcome of the get nonce workflow in get-info.mjs lines 131-148. -/
inductive GetNonceOutcome where
  | reported (n : Nat)
  | errorLogged
deriving DecidableEq

/-- Embedding of the get nonce workflow body (get-info.mjs lines 131-148):
when no nonce was supplied by the operator, the SimpleMultiSig nonce is read
from the chain and reported; a failed chain read is caught by the
surrounding try-catch block and merely logged. -/
def getNonceWorkflow (nonce : Option Nat) (chainNonce : Except Unit Nat) : GetNonceOutcome :=
  match nonce with
  | some n => GetNonceOutcome.reported n
  | none =>
    match chainNonce with
    | Except.ok c => GetNonceOutcome.reported c
    | Except.error _ => GetNonceOutcome.errorLogged

/-- The start function around the get nonce workflow (get-info.mjs lines
131-165): the try-catch swallows any chain read failure, after which start
proceeds to the execution loop (with no approvals in this workflow) and
returns normally, so the run as a whole never propagates an error value. -/
def startGetNonce (threshold : Nat) (nonce : Option Nat) (chainNonce : Except Unit Nat) :
    Except Unit (GetNonceOutcome × List ExecEvent) :=
  Except.ok (getNonceWorkflow nonce chainNonce, executorTrace threshold [])

/-- C9 counterexample: with no supplied nonce and an unreadable chain
counter, the run of start completes normally with the failure only logged;
it does not abort with a surfaced error, contrary to the claim that the
failure is fatal and surfaced to the caller. -/
theorem c9_counterexample :
    startGetNonce 2 none (Except.error ()) = Except.ok (GetNonceOutcome.errorLogged, []) ∧
    startGetNonce 2 none (Except.error ()) ≠ Except.error () :=
  ⟨rfl, fun h => Except.noConfusion h⟩

/-- C9 (amended): whenever the chain nonce counter cannot be read and no
nonce was supplied, the failure is caught inside the get nonce workflow: an
error is logged, no nonce is reported, the read is not retried, and start
runs to completion instead of surfacing a typed error to its caller. -/
theorem c9_nonce_read_failure_logged_not_surfaced (threshold : Nat)
    (chainNonce : Except Unit Nat) (h : chainNonce = Except.error ()) :
    startGetNonce threshold none chainNonce
      = Except.ok (GetNonceOutcome.errorLogged, []) := by
  subst h
  rfl

/-- Witness for C9 at threshold three and a concrete failed chain read. -/
theorem c9_witness :
    (Except.error () : Except Unit Nat) = Except.error () ∧
    startGetNonce 3 none (Except.error ())
      = Except.ok (GetNonceOutcome.errorLogged, []) :=
  ⟨rfl, c9_nonce_read_failure_logged_not_surfaced 3 (Except.error ()) rfl⟩

/-- A partial signature as it arrives in a serialized bundle: the multisig
call it claims to cover plus the raw signature bytes (abstracted). -/
structure IncomingSig where
  call : MultiSigCall
  bytes : Nat
deriving DecidableEq

/-- Key of the signature store: a call together with the signer address
recovered from the signature bytes. -/
abbrev SigKey := MultiSigCall × Nat

/-- SignatureSet: association list from (call, recovered address) to
signature bytes, kept in insertion order. -/
abbrev SigSet := List (SigKey × Nat)

/-- Lookup of the stored signature bytes for a key. -/
def lookupSig : SigSet → SigKey → Option Nat
  | [], _ => none
  | e :: rest, k => if e.1 = k then some e.2 else lookupSig rest k

/-- Insertion keyed by (call, recovered address): a repeat key overwrites in
place and never adds an entry; a new key is appended at the end. -/
def insertSig : SigSet → SigKey → Nat → SigSet
  | [], k, b => [(k, b)]
  | e :: rest, k, b => if e.1 = k then (k, b) :: rest else e :: insertSig rest k b

/-- Modelled from the spec: the merge step of the SignatureCollector lives in
services/helpers.mjs (verifyTransactions, addSignedTransaction), which is not
among the provided source files.  Per spec section 4.4 an incoming signature
is classified by recovering the signer address from the bytes and the
canonical payload of the claimed call (MalformedSignature when recovery
fails) and by checking the claimed call against the locally known calls
(UnknownOrMismatchedCall when absent); either failure drops the signature. -/
def classifySig (recover : MultiSigCall → Nat → Option Nat) (known : List MultiSigCall)
    (i : IncomingSig) : Option (SigKey × Nat) :=
  match recover i.call i.bytes with
  | none => none
  | some addr => if i.call ∈ known then some ((i.call, addr), i.bytes) else none

/-- Merge of one incoming signature: dropped when classification fails,
otherwise inserted keyed by the recovered address. -/
def mergeSig (recover : MultiSigCall → Nat → Option Nat) (known : List MultiSigCall)
    (S : SigSet) (i : IncomingSig) : SigSet :=
  match classifySig recover known i with
  | none => S
  | some (k, b) => insertSig S k b

/-- Merge of a whole incoming batch, in order. -/
def mergeBatch (recover : MultiSigCall → Nat → Option Nat) (known : List MultiSigCall)
    (S : SigSet) (B : List IncomingSig) : SigSet :=
  B.foldl (mergeSig recover known) S

/-- Application of a list of classified writes, in order. -/
def applyWrites (S : SigSet) (W : List (SigKey × Nat)) : SigSet :=
  W.foldl (fun T w => insertSig T w.1 w.2) S

/-- The last value a write list assigns to a key, if any. -/
def lastWrite : List (SigKey × Nat) → SigKey → Option Nat
  | [], _ => none
  | w :: W, k =>
    match lastWrite W k with
    | some b => some b
    | none => if w.1 = k then some w.2 else none

lemma lookupSig_insertSig (S : SigSet) (k kk : SigKey) (v : Nat) :
    lookupSig (insertSig S kk v) k = if k = kk then some v else lookupSig S k := by
  induction S with
  | nil =>
    by_cases h : k = kk
    · subst h
      simp [insertSig, lookupSig]
    · simp [insertSig, lookupSig, h, Ne.symm h]
  | cons e rest ih =>
    by_cases he : e.1 = kk
    · by_cases hk : k = kk
      · subst hk
        simp [insertSig, lookupSig, he]
      · have hek : e.1 ≠ k := fun h => hk (h.symm.trans he)
        simp [insertSig, lookupSig, he, hk, Ne.symm hk, hek]
    · by_cases hek : e.1 = k
      · have hk : k ≠ kk := fun h => he (hek.trans h)
        simp [insertSig, lookupSig, he, hek, hk]
      · simp [insertSig, lookupSig, he, hek, ih]

lemma insertSig_insertSig_same (S : SigSet) (k : SigKey) (v vv : Nat) :
    insertSig (insertSig S k v) k vv = insertSig S k vv := by
  induction S with
  | nil => simp [insertSig]
  | cons e rest ih =>
    by_cases h : e.1 = k
    · simp [insertSig, h]
    · simp [insertSig, h, ih]

lemma insertSig_lookup_eq (S : SigSet) (k : SigKey) (v : Nat)
    (h : lookupSig S k = some v) : insertSig S k v = S := by
  induction S with
  | nil => simp [lookupSig] at h
  | cons e rest ih =>
    by_cases he : e.1 = k
    · have h2 : e.2 = v := by
        simpa [lookupSig, he] using h
      have h3 : e = (k, v) := by
        cases e
        simp_all
      rw [h3]
      simp [insertSig]
    · have h2 : lookupSig rest k = some v := by
        simpa [lookupSig, he] using h
      simp [insertSig, he, ih h2]

lemma insertSig_swap (S : SigSet) (k kk : SigKey) (v vv : Nat) (hkk : k ≠ kk)
    (hp : (lookupSig S k).isSome) :
    insertSig (insertSig S k v) kk vv = insertSig (insertSig S kk vv) k v := by
  induction S with
  | nil => simp [lookupSig] at hp
  | cons e rest ih =>
    by_cases h1 : e.1 = k
    · have h2 : e.1 ≠ kk := fun h => hkk (h1.symm.trans h)
      simp [insertSig, h1, h2, hkk, Ne.symm hkk]
    · by_cases h2 : e.1 = kk
      · simp [insertSig, h1, h2, hkk, Ne.symm hkk]
      · have hp2 : (lookupSig rest k).isSome := by
          simpa [lookupSig, h1] using hp
        simp [insertSig, h1, h2, ih hp2]

lemma lastWrite_none_applyWrites (W : List (SigKey × Nat)) (S : SigSet) (k : SigKey)
    (h : lastWrite W k = none) :
    lookupSig (applyWrites S W) k = lookupSig S k := by
  induction W generalizing S with
  | nil => rfl
  | cons w W ih =>
    have hW : lastWrite W k = none := by
      cases hw : lastWrite W k with
      | none => rfl
      | some b => simp [lastWrite, hw] at h
    have hwk : w.1 ≠ k := by
      intro hk
      simp [lastWrite, hW, hk] at h
    have step : applyWrites S (w :: W) = applyWrites (insertSig S w.1 w.2) W := rfl
    rw [step, ih (insertSig S w.1 w.2) hW, lookupSig_insertSig]
    simp [Ne.symm hwk]

lemma lastWrite_some_applyWrites (W : List (SigKey × Nat)) (S : SigSet) (k : SigKey)
    (b : Nat) (h : lastWrite W k = some b) :
    lookupSig (applyWrites S W) k = some b := by
  induction W generalizing S with
  | nil => simp [lastWrite] at h
  | cons w W ih =>
    have step : applyWrites S (w :: W) = applyWrites (insertSig S w.1 w.2) W := rfl
    cases hw : lastWrite W k with
    | some bb =>
      have hbb : bb = b := by
        simpa [lastWrite, hw] using h
      subst hbb
      rw [step]
      exact ih (insertSig S w.1 w.2) hw
    | none =>
      have hif : (if w.1 = k then some w.2 else none) = some b := by
        simpa [lastWrite, hw] using h
      by_cases hk : w.1 = k
      · have hb : w.2 = b := by
          simpa [hk] using hif
        rw [step, lastWrite_none_applyWrites W _ _ hw, lookupSig_insertSig]
        simp [hk, hb]
      · simp [hk] at hif

lemma applyWrites_insertSig_overwritten (W : List (SigKey × Nat)) (T : SigSet)
    (k : SigKey) (v : Nat) (hp : (lookupSig T k).isSome) (hw : lastWrite W k ≠ none) :
    applyWrites (insertSig T k v) W = applyWrites T W := by
  induction W generalizing T v with
  | nil => simp [lastWrite] at hw
  | cons w W ih =>
    have stepL : applyWrites (insertSig T k v) (w :: W)
        = applyWrites (insertSig (insertSig T k v) w.1 w.2) W := rfl
    have stepR : applyWrites T (w :: W) = applyWrites (insertSig T w.1 w.2) W := rfl
    by_cases hk : w.1 = k
    · rw [stepL, stepR, hk, insertSig_insertSig_same]
    · have hw2 : lastWrite W k ≠ none := by
        intro hn
        apply hw
        simp [lastWrite, hn, hk]
      have hswap : insertSig (insertSig T k v) w.1 w.2
          = insertSig (insertSig T w.1 w.2) k v :=
        insertSig_swap T k w.1 v w.2 (fun h => hk h.symm) hp
      have hp2 : (lookupSig (insertSig T w.1 w.2) k).isSome := by
        rw [lookupSig_insertSig]
        simp [Ne.symm hk] at hp ⊢
        exact hp
      rw [stepL, stepR, hswap]
      exact ih (insertSig T w.1 w.2) v hp2 hw2

lemma applyWrites_idem (W : List (SigKey × Nat)) (S : SigSet) :
    applyWrites (applyWrites S W) W = applyWrites S W := by
  induction W generalizing S with
  | nil => rfl
  | cons w W ih =>
    have step : ∀ X : SigSet, applyWrites X (w :: W)
        = applyWrites (insertSig X w.1 w.2) W := fun _ => rfl
    rw [step, step]
    cases hw : lastWrite W w.1 with
    | none =>
      have hl : lookupSig (applyWrites (insertSig S w.1 w.2) W) w.1 = some w.2 := by
        rw [lastWrite_none_applyWrites W _ _ hw, lookupSig_insertSig]
        simp
      rw [insertSig_lookup_eq _ _ _ hl]
      exact ih (insertSig S w.1 w.2)
    | some b =>
      have hp : (lookupSig (applyWrites (insertSig S w.1 w.2) W) w.1).isSome := by
        rw [lastWrite_some_applyWrites W _ _ _ hw]
        rfl
      rw [applyWrites_insertSig_overwritten W _ _ _ hp (by simp [hw])]
      exact ih (insertSig S w.1 w.2)

lemma mergeBatch_eq_applyWrites (recover : MultiSigCall → Nat → Option Nat)
    (known : List MultiSigCall) (S : SigSet) (B : List IncomingSig) :
    mergeBatch recover known S B = applyWrites S (B.filterMap (classifySig recover known)) := by
  induction B generalizing S with
  | nil => rfl
  | cons i B ih =>
    have hstep : mergeBatch recover known S (i :: B)
        = mergeBatch recover known (mergeSig recover known S i) B := rfl
    cases hc : classifySig recover known i with
    | none =>
      have hm : mergeSig recover known S i = S := by
        simp [mergeSig, hc]
      rw [hstep, hm, ih]
      congr 1
      simp [List.filterMap_cons, hc]
    | some wb =>
      obtain ⟨k, b⟩ := wb
      have hm : mergeSig recover known S i = insertSig S k b := by
        simp [mergeSig, hc]
      have hf : (i :: B).filterMap (classifySig recover known)
          = (k, b) :: B.filterMap (classifySig recover known) := by
        simp [List.filterMap_cons, hc]
      rw [hstep, hm, ih, hf]
      rfl

lemma lookupSig_applyWrites_isSome (W : List (SigKey × Nat)) (S : SigSet) (k : SigKey) :
    (lookupSig (applyWrites S W) k).isSome
      = ((lookupSig S k).isSome || W.any (fun w => decide (w.1 = k))) := by
  induction W generalizing S with
  | nil => simp [applyWrites]
  | cons w W ih =>
    have step : applyWrites S (w :: W) = applyWrites (insertSig S w.1 w.2) W := rfl
    rw [step, ih, List.any_cons]
    by_cases h : k = w.1
    · simp [lookupSig_insertSig, h]
    · simp [lookupSig_insertSig, h, Ne.symm h, Bool.or_assoc]

lemma insertSig_length_of_mem (S : SigSet) (k : SigKey) (b : Nat)
    (h : (lookupSig S k).isSome) : (insertSig S k b).length = S.length := by
  induction S with
  | nil => simp [lookupSig] at h
  | cons e rest ih =>
    by_cases he : e.1 = k
    · simp [insertSig, he]
    · have h2 : (lookupSig rest k).isSome := by
        simpa [lookupSig, he] using h
      simp [insertSig, he, ih h2]

/-- C6 (amended): merging the same batch twice yields exactly the same
SignatureSet as merging it once; merging two batches in either order yields
the same per-call sets of recovered signer addresses (hence the same quorum
counts); and inserting a signature for an already-present (call, address)
key overwrites in place and never increases the size of the set.  Full
structural equality under reordering of the two batches does not hold in
general, because a repeat address overwrites the stored bytes (see the
counterexample). -/
theorem c6_merge_idempotent_and_commutative_on_addresses
    (recover : MultiSigCall → Nat → Option Nat) (known : List MultiSigCall)
    (S : SigSet) (B B1 B2 : List IncomingSig) (k : SigKey) (b : Nat) :
    mergeBatch recover known (mergeBatch recover known S B) B
      = mergeBatch recover known S B ∧
    (lookupSig (mergeBatch recover known (mergeBatch recover known S B1) B2) k).isSome
      = (lookupSig (mergeBatch recover known (mergeBatch recover known S B2) B1) k).isSome ∧
    ((lookupSig S k).isSome → (insertSig S k b).length = S.length) := by
  refine ⟨?_, ?_, insertSig_length_of_mem S k b⟩
  · simp only [mergeBatch_eq_applyWrites]
    exact applyWrites_idem _ _
  · simp only [mergeBatch_eq_applyWrites, lookupSig_applyWrites_isSome]
    cases (lookupSig S k).isSome <;>
      cases hb1 : (B1.filterMap (classifySig recover known)).any (fun w => decide (w.1 = k)) <;>
      cases hb2 : (B2.filterMap (classifySig recover known)).any (fun w => decide (w.1 = k)) <;>
      simp [hb1, hb2]

/-- C6 counterexample: two batches that each carry a valid signature for the
same known call from the same recovered address but with different bytes
(possible since ECDSA recovery is not injective on signature bytes) merge to
different SignatureSets depending on order, because the later bytes
overwrite the earlier ones; so merge is not commutative as stated. -/
theorem c6_counterexample :
    mergeBatch (fun _ _ => some 7) [{ target := 0, data := CallData.pause, nonce := 0 }]
        (mergeBatch (fun _ _ => some 7) [{ target := 0, data := CallData.pause, nonce := 0 }]
          [] [{ call := { target := 0, data := CallData.pause, nonce := 0 }, bytes := 1 }])
        [{ call := { target := 0, data := CallData.pause, nonce := 0 }, bytes := 2 }]
      ≠ mergeBatch (fun _ _ => some 7) [{ target := 0, data := CallData.pause, nonce := 0 }]
        (mergeBatch (fun _ _ => some 7) [{ target := 0, data := CallData.pause, nonce := 0 }]
          [] [{ call := { target := 0, data := CallData.pause, nonce := 0 }, bytes := 2 }])
        [{ call := { target := 0, data := CallData.pause, nonce := 0 }, bytes := 1 }] := by
  decide

/-- Witness for C6 discharging the repeat-address hypothesis on a concrete
one-entry SignatureSet. -/
theorem c6_witness :
    (lookupSig [((({ target := 0, data := CallData.pause, nonce := 0 } : MultiSigCall), 5), 9)]
        (({ target := 0, data := CallData.pause, nonce := 0 } : MultiSigCall), 5)).isSome = true ∧
    (insertSig [((({ target := 0, data := CallData.pause, nonce := 0 } : MultiSigCall), 5), 9)]
        (({ target := 0, data := CallData.pause, nonce := 0 } : MultiSigCall), 5) 4).length
      = [((({ target := 0, data := CallData.pause, nonce := 0 } : MultiSigCall), 5), 9)].length :=
  ⟨by decide,
    (c6_merge_idempotent_and_commutative_on_addresses (fun _ _ => some 7) []
      [((({ target := 0, data := CallData.pause, nonce := 0 } : MultiSigCall), 5), 9)] [] [] []
      (({ target := 0, data := CallData.pause, nonce := 0 } : MultiSigCall), 5) 4).2.2
      (by decide)⟩

/-- C7: an incoming signature whose classification fails (malformed, so
address recovery returns none, or covering a call not known locally) is
dropped from the merge batch without affecting the processing of the other
signatures: merging the batch with the offending entry equals merging the
batch without it. -/
theorem c7_bad_signature_dropped_rest_merged
    (recover : MultiSigCall → Nat → Option Nat) (known : List MultiSigCall)
    (S : SigSet) (B1 B2 : List IncomingSig) (bad : IncomingSig)
    (h : classifySig recover known bad = none) :
    mergeBatch recover known S (B1 ++ bad :: B2) = mergeBatch recover known S (B1 ++ B2) := by
  induction B1 generalizing S with
  | nil =>
    have hm : mergeSig recover known S bad = S := by
      simp [mergeSig, h]
    show mergeBatch recover known (mergeSig recover known S bad) B2
        = mergeBatch recover known S B2
    rw [hm]
  | cons i B1 ih =>
    show mergeBatch recover known (mergeSig recover known S i) (B1 ++ bad :: B2)
        = mergeBatch recover known (mergeSig recover known S i) (B1 ++ B2)
    exact ih (mergeSig recover known S i)

/-- Witness for C7: a malformed signature (bytes 0, on which the recovery
function fails) sitting between two good signatures is dropped while the
rest of the batch still merges. -/
theorem c7_witness :
    classifySig (fun _ b => if b = 0 then none else some b)
        [{ target := 0, data := CallData.pause, nonce := 0 }]
        { call := { target := 0, data := CallData.pause, nonce := 0 }, bytes := 0 } = none ∧
    mergeBatch (fun _ b => if b = 0 then none else some b)
        [{ target := 0, data := CallData.pause, nonce := 0 }] []
        ([{ call := { target := 0, data := CallData.pause, nonce := 0 }, bytes := 1 }]
          ++ { call := { target := 0, data := CallData.pause, nonce := 0 }, bytes := 0 }
            :: [{ call := { target := 0, data := CallData.pause, nonce := 0 }, bytes := 2 }])
      = mergeBatch (fun _ b => if b = 0 then none else some b)
        [{ target := 0, data := CallData.pause, nonce := 0 }] []
        ([{ call := { target := 0, data := CallData.pause, nonce := 0 }, bytes := 1 }]
          ++ [{ call := { target := 0, data := CallData.pause, nonce := 0 }, bytes := 2 }]) :=
  ⟨by decide,
    c7_bad_signature_dropped_rest_merged (fun _ b => if b = 0 then none else some b)
      [{ target := 0, data := CallData.pause, nonce := 0 }] []
      [{ call := { target := 0, data := CallData.pause, nonce := 0 }, bytes := 1 }]
      [{ call := { target := 0, data := CallData.pause, nonce := 0 }, bytes := 2 }]
      { call := { target := 0, data := CallData.pause, nonce := 0 }, bytes := 0 }
      (by decide)⟩
